import Mathlib

/-!
Verification of the MAC-address utility core (validator, array/buffer
converters, canonical formatter, reversal, equality checker) against its
natural-language specification.  The JavaScript functions of
`src/index.js` are shallowly embedded below: byte buffers become
`List Nat` (a well-formed buffer holds values below 256), thrown
exceptions become `Except JsError`, and the JS number coercion `~~offset`
becomes `toInt32`.
-/

namespace MacUtils

/-- Error kinds thrown by the library.  The source throws plain `Error`
    objects whose messages distinguish the cases; the payloads here carry
    the data interpolated into those messages:
    `invalidFormat` is thrown by `toBuffer` and `reverseMacAddress`
    (message: Not a valid mac address.), `invalidFormatAt value index` by
    `areEqual` (its message names the offending value and its index),
    `bufferTooSmall offset totalLength` by `validateBufferLength`, and
    `rangeError` models the RangeError Node raises for an out-of-range
    `Buffer.write` / `readUInt8` position. -/
inductive JsError where
  | invalidFormat : JsError
  | invalidFormatAt : String → Nat → JsError
  | bufferTooSmall : Int → Nat → JsError
  | rangeError : JsError
deriving DecidableEq, Repr

/-- `const bufferLength = 6`. -/
def bufferLength : Nat := 6

/-- The separator character class `[:-]` of the source regexes. -/
def isSep (c : Char) : Bool := c == ':' || c == '-'

/-- The characters matched by the regex class `[0-9A-Fa-f]`. -/
def hexChars : List Char :=
  ['0', '1', '2', '3', '4', '5', '6', '7', '8', '9',
   'A', 'B', 'C', 'D', 'E', 'F', 'a', 'b', 'c', 'd', 'e', 'f']

/-- Membership in the regex class `[0-9A-Fa-f]`. -/
def isHexDigit (c : Char) : Bool := hexChars.contains c

/-- Numeric value of a hex digit (case-insensitive), as used by the hex
    decoding of `Buffer.write(..., "hex")`. -/
def hexVal (c : Char) : Nat :=
  if c == '0' then 0 else if c == '1' then 1 else if c == '2' then 2
  else if c == '3' then 3 else if c == '4' then 4 else if c == '5' then 5
  else if c == '6' then 6 else if c == '7' then 7 else if c == '8' then 8
  else if c == '9' then 9
  else if c == 'a' || c == 'A' then 10
  else if c == 'b' || c == 'B' then 11
  else if c == 'c' || c == 'C' then 12
  else if c == 'd' || c == 'D' then 13
  else if c == 'e' || c == 'E' then 14
  else if c == 'f' || c == 'F' then 15
  else 0

/-- JS `String.prototype.toUpperCase`, restricted to the ASCII mapping
    (every string the library handles is ASCII). -/
def jsToUpper (s : String) : String := String.mk (s.data.map Char.toUpper)

/-- JS `String.prototype.split(/[:-]/)`: cut the character list at every
    separator occurrence; `""` splits to `[""]`, adjacent separators give
    empty groups, exactly as in JS. -/
def splitSeps : List Char → List (List Char)
  | [] => [[]]
  | c :: rest =>
    if isSep c then [] :: splitSeps rest
    else
      match splitSeps rest with
      | [] => [[c]]
      | g :: gs => (c :: g) :: gs

/-- `toArray` (src/index.js lines 143-147): uppercase, then split on
    `[:-]`. -/
def toArray (macAddress : String) : List String :=
  ((splitSeps (jsToUpper macAddress).data).map fun g => String.mk g)

/-- JS `Array.prototype.join(sep)` at the character-list level. -/
def joinSepData (sep : List Char) : List (List Char) → List Char
  | [] => []
  | [g] => g
  | g :: gs => g ++ sep ++ joinSepData sep gs

/-- `constructMacAddress` (lines 100-105): `array.join(sep)` then
    `.toUpperCase()`; `separator || ":"` makes both a missing and an
    empty separator default to `":"`. -/
def constructMacAddress (array : List String) (separator : Option String) : String :=
  let sep : String := match separator with
    | none => ":"
    | some s => if s = "" then ":" else s
  jsToUpper (String.mk (joinSepData sep.data (array.map String.data)))

/-- The regex `^[0-9A-Fa-f]{2}([:-])(?:[0-9A-Fa-f]{2}\1){4}[0-9A-Fa-f]{2}$`
    on a character list: exactly 17 characters, positions 0-1, 3-4, ...,
    15-16 hex digits, position 2 a separator from `[:-]`, and positions
    5, 8, 11, 14 equal to the captured separator (backreference `\1`). -/
def macShape : List Char → Bool
  | [a1, a2, s1, b1, b2, s2, c1, c2, s3, d1, d2, s4, e1, e2, s5, f1, f2] =>
    isHexDigit a1 && isHexDigit a2 && (s1 == ':' || s1 == '-') &&
    isHexDigit b1 && isHexDigit b2 && s2 == s1 &&
    isHexDigit c1 && isHexDigit c2 && s3 == s1 &&
    isHexDigit d1 && isHexDigit d2 && s4 == s1 &&
    isHexDigit e1 && isHexDigit e2 && s5 == s1 &&
    isHexDigit f1 && isHexDigit f2
  | _ => false

/-- `isMacAddress` (lines 113-119): test the regex above. -/
def isMacAddress (s : String) : Bool := macShape s.data

/-- `reverseMacAddress` (lines 127-135): validate, uppercase, split on
    `[:-]`, reverse the group order, reformat with the default
    separator. -/
def reverseMacAddress (macAddress : String) : Except JsError String :=
  if !isMacAddress macAddress then .error .invalidFormat
  else
    let upperCaseMac := jsToUpper macAddress
    let macArray := (splitSeps upperCaseMac.data).map fun g => String.mk g
    .ok (constructMacAddress macArray.reverse none)

/-- JS `ToInt32` — the semantics of `~~offset` (lines 163 and 184). -/
def toInt32 (o : Int) : Int := (o + 2147483648) % 4294967296 - 2147483648

/-- `validateBufferLength` (lines 21-26): throw when
    `buf.length < offset + 6`; the thrown message carries the offset and
    the total length. -/
def validateBufferLength (buf : List Nat) (offset : Int) : Except JsError Unit :=
  if (buf.length : Int) < offset + (bufferLength : Int) then
    .error (.bufferTooSmall offset buf.length)
  else .ok ()

/-- `mac.replace(/[:-]/g, "")` (line 162). -/
def stripSepsStr (s : String) : String :=
  String.mk (s.data.filter fun c => !(isSep c))

/-- Hex decoding of `Buffer.write(string, ..., "hex")`: consume
    consecutive pairs of hex digits, stopping at the first invalid pair
    or lone trailing character. -/
def hexDecodePairs : List Char → List Nat
  | a :: b :: rest =>
    if isHexDigit a && isHexDigit b then
      (16 * hexVal a + hexVal b) :: hexDecodePairs rest
    else []
  | _ => []

/-- Overwrite the bytes of `buf` from position `off` with `vs`, keeping
    everything else; values beyond the end of `buf` are dropped. -/
def writeBytes : List Nat → Nat → List Nat → List Nat
  | [], _, _ => []
  | b :: bs, 0, [] => b :: bs
  | _ :: bs, 0, v :: vs => v :: writeBytes bs 0 vs
  | b :: bs, n + 1, vs => b :: writeBytes bs n vs

/-- `tempBuffer.write(convertedMac, offset, len, "hex")` (line 169):
    Node raises a RangeError for an out-of-range offset, otherwise hex
    decodes the string and writes at most
    `min len (buf.length - offset)` bytes at `offset`. -/
def bufWriteHex (buf : List Nat) (str : String) (offset : Int) (len : Nat) :
    Except JsError (List Nat) :=
  if offset < 0 || (buf.length : Int) < offset then .error .rangeError
  else
    let off := offset.toNat
    let maxLen := min len (buf.length - off)
    .ok (writeBytes buf off ((hexDecodePairs str.data).take maxLen))

/-- `toBuffer` (lines 157-173): validate the string, strip separators,
    truncate the offset with `~~`, take the supplied buffer or allocate a
    fresh zero-filled 6-byte one, check the length, and then — only when
    NO buffer was supplied (`if (!Buffer.isBuffer(buf))`) — hex-write the
    stripped string into the fresh buffer.  A supplied buffer is returned
    untouched. -/
def toBuffer (mac : String) (buf : Option (List Nat)) (offset : Int) :
    Except JsError (List Nat) :=
  if !isMacAddress mac then .error .invalidFormat
  else
    let convertedMac := stripSepsStr mac
    let bitwiseOffset := toInt32 offset
    let tempBuffer := match buf with
      | some b => b
      | none => List.replicate bufferLength 0
    match validateBufferLength tempBuffer bitwiseOffset with
    | .error e => .error e
    | .ok _ =>
      match buf with
      | some b => .ok b
      | none => bufWriteHex tempBuffer convertedMac bitwiseOffset bufferLength

/-- Lowercase hex digit character for a value below 16, as produced by
    JS `Number.prototype.toString(16)`. -/
def hexDigitChar (n : Nat) : Char :=
  if n < 10 then Char.ofNat (48 + n) else Char.ofNat (87 + n)

/-- `tempByte.toString(16)` for a byte value (`readUInt8` always yields
    a value in `[0, 255]`): one or two lowercase hex digits. -/
def jsByteToHex (n : Nat) : List Char :=
  if n < 16 then [hexDigitChar n] else [hexDigitChar (n / 16), hexDigitChar (n % 16)]

/-- The padding step of `toString` (line 194): prepend a zero when the
    hex rendering is shorter than 2 characters. -/
def padTwo (l : List Char) : List Char :=
  if l.length < 2 then '0' :: l else l

/-- `toString` (lines 183-200): truncate the offset with `~~`, check the
    buffer length, read 6 consecutive bytes (`readUInt8` raises a
    RangeError for a negative position), render each as padded hex and
    format via `constructMacAddress`. -/
def toString (buf : List Nat) (offset : Int) (separator : Option String) :
    Except JsError String :=
  let bitwiseOffset := toInt32 offset
  match validateBufferLength buf bitwiseOffset with
  | .error e => .error e
  | .ok _ =>
    if bitwiseOffset < 0 then .error .rangeError
    else
      let off := bitwiseOffset.toNat
      let values := (List.range bufferLength).map
        fun i => String.mk (padTwo (jsByteToHex (buf.getD (off + i) 0)))
      .ok (constructMacAddress values separator)

/-- `containsAll` helper inside `areEqual` (lines 212-215). -/
def containsAll (arr1 arr2 : List String) : Bool :=
  arr2.all fun x => arr1.contains x

/-- `sameElements` helper inside `areEqual` (lines 217-220). -/
def sameElements (arr1 arr2 : List String) : Bool :=
  containsAll arr1 arr2 && containsAll arr2 arr1

/-- The validation/conversion `forEach` of `areEqual` (lines 223-229):
    throw at the first invalid address, naming it and its index,
    otherwise convert each address with `toArray`. -/
def convertAddresses : List String → Nat → Except JsError (List (List String))
  | [], _ => .ok []
  | m :: ms, i =>
    if !isMacAddress m then .error (.invalidFormatAt m i)
    else
      match convertAddresses ms (i + 1) with
      | .error e => .error e
      | .ok rest => .ok (toArray m :: rest)

/-- `areEqual` (lines 208-239): convert all addresses, then check every
    converted array against the first (`convertedAddresses[0]`, never
    read when the list is empty — modelled by `headD []`). -/
def areEqual (macAddresses : List String) : Except JsError Bool :=
  match convertAddresses macAddresses 0 with
  | .error e => .error e
  | .ok conv => .ok (conv.all fun a => sameElements (conv.headD []) a)

/-! ### Specification-side definitions

These follow the words of the specification (data model and §8) and are
compared against the source-translated functions above. -/

/-- Uppercase hex digit character for a value below 16. -/
def upperHexDigit (n : Nat) : Char :=
  if n < 10 then Char.ofNat (48 + n) else Char.ofNat (55 + n)

/-- The spec rendering of one octet: zero-padded 2-digit uppercase hex. -/
def byteHexUpper (n : Nat) : List Char :=
  [upperHexDigit (n / 16), upperHexDigit (n % 16)]

/-- Numeric value of a 2-character hex group (the data model's
    byte i == numeric value of group i). -/
def groupVal (g : String) : Nat :=
  match g.data with
  | [hi, lo] => 16 * hexVal hi + hexVal lo
  | _ => 0

/-- The spec notion of group-sequence equality used by `areEqual`
    (§4.6): each sequence is a subset of the other as a set, ignoring
    order and duplicate counts. -/
def groupSetEq (a b : List String) : Prop :=
  (∀ g ∈ a, g ∈ b) ∧ (∀ g ∈ b, g ∈ a)

/-- The validator grammar as the spec (§4.1) words it: exactly 6 groups
    of exactly 2 hex characters, joined by 5 occurrences of one
    separator from the set containing the colon and the hyphen, used
    consistently. -/
def macSpec (s : String) : Prop :=
  ∃ (sep : Char) (gs : List (List Char)),
    (sep = ':' ∨ sep = '-') ∧ gs.length = 6 ∧
    (∀ g ∈ gs, g.length = 2 ∧ ∀ c ∈ g, isHexDigit c = true) ∧
    s.data = joinSepData [sep] gs

/-- A 2-character hex group. -/
def hexPairStr (g : String) : Prop :=
  ∃ x y, g.data = [x, y] ∧ isHexDigit x = true ∧ isHexDigit y = true

/-- Character-wise uppercase of a group string. -/
def upGroup (g : String) : String := String.mk (g.data.map Char.toUpper)

/-! ### Helper lemmas -/

lemma mem_hexChars_of_isHexDigit {c : Char} (h : isHexDigit c = true) :
    c ∈ hexChars := by
  simpa [isHexDigit] using h

/-- All the per-character facts needed about a hex digit, by enumerating
    the 22 characters of the class. -/
lemma hexCharFacts {c : Char} (h : isHexDigit c = true) :
    isSep c = false ∧ isSep (Char.toUpper c) = false ∧
    isHexDigit (Char.toUpper c) = true ∧
    hexVal (Char.toUpper c) = hexVal c ∧
    Char.toUpper (Char.toUpper c) = Char.toUpper c ∧
    hexVal c < 16 := by
  have hm := mem_hexChars_of_isHexDigit h
  fin_cases hm <;> exact ⟨rfl, rfl, rfl, rfl, rfl, by decide⟩

/-- Per-character facts about the two admissible separator
    characters. -/
lemma sepCharFacts {sep : Char} (h : sep = ':' ∨ sep = '-') :
    isSep sep = true ∧ Char.toUpper sep = sep ∧ isHexDigit sep = false := by
  rcases h with rfl | rfl <;> exact ⟨rfl, rfl, rfl⟩

/-- The structure behind a successful `isMacAddress` test: 17
    characters, 6 hex pairs, one consistent separator. -/
lemma isMac_shape {s : String} (h : isMacAddress s = true) :
    ∃ sep a1 a2 b1 b2 c1 c2 d1 d2 e1 e2 f1 f2,
      s.data = [a1, a2, sep, b1, b2, sep, c1, c2, sep, d1, d2, sep, e1, e2, sep, f1, f2] ∧
      (sep = ':' ∨ sep = '-') ∧
      isHexDigit a1 = true ∧ isHexDigit a2 = true ∧
      isHexDigit b1 = true ∧ isHexDigit b2 = true ∧
      isHexDigit c1 = true ∧ isHexDigit c2 = true ∧
      isHexDigit d1 = true ∧ isHexDigit d2 = true ∧
      isHexDigit e1 = true ∧ isHexDigit e2 = true ∧
      isHexDigit f1 = true ∧ isHexDigit f2 = true := by
  unfold isMacAddress macShape at h
  split at h
  · rename_i a1 a2 s1 b1 b2 s2 c1 c2 s3 d1 d2 s4 e1 e2 s5 f1 f2 heq
    simp only [Bool.and_eq_true, Bool.or_eq_true, beq_iff_eq] at h
    obtain ⟨⟨⟨⟨⟨⟨⟨⟨⟨⟨⟨⟨⟨⟨⟨⟨ha1, ha2⟩, hs1⟩, hb1⟩, hb2⟩, hs2⟩, hc1⟩, hc2⟩, hs3⟩,
      hd1⟩, hd2⟩, hs4⟩, he1⟩, he2⟩, hs5⟩, hf1⟩, hf2⟩ := h
    rw [hs2, hs3, hs4, hs5] at heq
    exact ⟨s1, a1, a2, b1, b2, c1, c2, d1, d2, e1, e2, f1, f2, heq, hs1,
      ha1, ha2, hb1, hb2, hc1, hc2, hd1, hd2, he1, he2, hf1, hf2⟩
  · exact absurd h (by simp)

/-- `~~` is the identity on int32-range offsets. -/
lemma toInt32_of_range {o : Int} (h1 : -2147483648 ≤ o) (h2 : o < 2147483648) :
    toInt32 o = o := by
  unfold toInt32
  rw [Int.emod_eq_of_lt (by omega) (by omega)]
  omega

/-- Every list has the same elements as itself. -/
lemma sameElements_self (l : List String) : sameElements l l = true := by
  simp [sameElements, containsAll, List.all_eq_true]

/-- `sameElements` decides exactly the mutual-subset relation of the
    specification. -/
lemma sameElements_iff (a b : List String) :
    sameElements a b = true ↔ groupSetEq a b := by
  simp [sameElements, containsAll, groupSetEq, List.all_eq_true]
  exact and_comm

/-- When every address is valid, the conversion loop of `areEqual`
    returns all the converted arrays, whatever the running index. -/
lemma convertAddresses_ok :
    ∀ (ms : List String), (∀ m ∈ ms, isMacAddress m = true) →
    ∀ i, convertAddresses ms i = .ok (ms.map toArray)
  | [], _, _ => rfl
  | m :: ms, h, i => by
    have hm : isMacAddress m = true := h m (List.mem_cons_self m ms)
    have hrest := convertAddresses_ok ms (fun x hx => h x (List.mem_cons_of_mem m hx)) (i + 1)
    simp [convertAddresses, hm, hrest]

/-- The conversion loop of `areEqual` stops at the first invalid
    address, reporting it together with its index. -/
lemma convertAddresses_err {s : String} (hs : isMacAddress s = false) :
    ∀ (pre : List String), (∀ m ∈ pre, isMacAddress m = true) →
    ∀ (post : List String) (i : Nat),
      convertAddresses (pre ++ s :: post) i = .error (.invalidFormatAt s (i + pre.length))
  | [], _, post, i => by simp [convertAddresses, hs]
  | m :: pre, h, post, i => by
    have hm : isMacAddress m = true := h m (List.mem_cons_self m pre)
    have hrest := convertAddresses_err hs pre
      (fun x hx => h x (List.mem_cons_of_mem m hx)) post (i + 1)
    simp [convertAddresses, hm, hrest]
    omega

lemma isSep_colon : isSep ':' = true := rfl

/-- Facts about hex digit characters for values below 16. -/
lemma pbDigit : ∀ k, k < 16 →
    (isHexDigit (hexDigitChar k) = true ∧ hexVal (hexDigitChar k) = k ∧
     Char.toUpper (hexDigitChar k) = upperHexDigit k ∧
     isHexDigit (upperHexDigit k) = true ∧ hexVal (upperHexDigit k) = k ∧
     Char.toUpper (upperHexDigit k) = upperHexDigit k) := by
  intro k h
  interval_cases k <;> exact ⟨rfl, rfl, rfl, rfl, rfl, rfl⟩

/-- The padded hex rendering of a byte is its two hex digits. -/
lemma pbPad : ∀ n, n < 256 →
    padTwo (jsByteToHex n) = [hexDigitChar (n / 16), hexDigitChar (n % 16)] := by
  intro n h
  interval_cases n <;> rfl

/-- The canonical formatter applied (with the default separator) to six
    2-character hex groups: the result passes the validator, its data is
    the colon-join of the uppercased groups, and `toArray` recovers the
    uppercased groups. -/
lemma construct_hexGroups (g1 g2 g3 g4 g5 g6 : String)
    (h1 : hexPairStr g1) (h2 : hexPairStr g2) (h3 : hexPairStr g3)
    (h4 : hexPairStr g4) (h5 : hexPairStr g5) (h6 : hexPairStr g6) :
    isMacAddress (constructMacAddress [g1, g2, g3, g4, g5, g6] none) = true ∧
    (constructMacAddress [g1, g2, g3, g4, g5, g6] none).data =
      joinSepData [':'] [(upGroup g1).data, (upGroup g2).data, (upGroup g3).data,
        (upGroup g4).data, (upGroup g5).data, (upGroup g6).data] ∧
    toArray (constructMacAddress [g1, g2, g3, g4, g5, g6] none) =
      [upGroup g1, upGroup g2, upGroup g3, upGroup g4, upGroup g5, upGroup g6] := by
  obtain ⟨x1, y1, e1, hx1, hy1⟩ := h1
  obtain ⟨x2, y2, e2, hx2, hy2⟩ := h2
  obtain ⟨x3, y3, e3, hx3, hy3⟩ := h3
  obtain ⟨x4, y4, e4, hx4, hy4⟩ := h4
  obtain ⟨x5, y5, e5, hx5, hy5⟩ := h5
  obtain ⟨x6, y6, e6, hx6, hy6⟩ := h6
  obtain ⟨hx1s, hx1su, hx1u, hx1v, hx1uu, hx1lt⟩ := hexCharFacts hx1
  obtain ⟨hy1s, hy1su, hy1u, hy1v, hy1uu, hy1lt⟩ := hexCharFacts hy1
  obtain ⟨hx2s, hx2su, hx2u, hx2v, hx2uu, hx2lt⟩ := hexCharFacts hx2
  obtain ⟨hy2s, hy2su, hy2u, hy2v, hy2uu, hy2lt⟩ := hexCharFacts hy2
  obtain ⟨hx3s, hx3su, hx3u, hx3v, hx3uu, hx3lt⟩ := hexCharFacts hx3
  obtain ⟨hy3s, hy3su, hy3u, hy3v, hy3uu, hy3lt⟩ := hexCharFacts hy3
  obtain ⟨hx4s, hx4su, hx4u, hx4v, hx4uu, hx4lt⟩ := hexCharFacts hx4
  obtain ⟨hy4s, hy4su, hy4u, hy4v, hy4uu, hy4lt⟩ := hexCharFacts hy4
  obtain ⟨hx5s, hx5su, hx5u, hx5v, hx5uu, hx5lt⟩ := hexCharFacts hx5
  obtain ⟨hy5s, hy5su, hy5u, hy5v, hy5uu, hy5lt⟩ := hexCharFacts hy5
  obtain ⟨hx6s, hx6su, hx6u, hx6v, hx6uu, hx6lt⟩ := hexCharFacts hx6
  obtain ⟨hy6s, hy6su, hy6u, hy6v, hy6uu, hy6lt⟩ := hexCharFacts hy6
  have hdata : (constructMacAddress [g1, g2, g3, g4, g5, g6] none).data =
      [x1.toUpper, y1.toUpper, ':', x2.toUpper, y2.toUpper, ':', x3.toUpper, y3.toUpper, ':',
       x4.toUpper, y4.toUpper, ':', x5.toUpper, y5.toUpper, ':', x6.toUpper, y6.toUpper] := by
    simp [constructMacAddress, jsToUpper, joinSepData, e1, e2, e3, e4, e5, e6]
  refine ⟨?_, ?_, ?_⟩
  · unfold isMacAddress
    rw [hdata]
    simp [macShape, hx1u, hy1u, hx2u, hy2u, hx3u, hy3u, hx4u, hy4u, hx5u, hy5u, hx6u, hy6u]
  · rw [hdata]
    simp [upGroup, joinSepData, e1, e2, e3, e4, e5, e6]
  · unfold toArray jsToUpper
    rw [hdata]
    simp [splitSeps, upGroup, e1, e2, e3, e4, e5, e6, isSep_colon,
      hx1su, hy1su, hx2su, hy2su, hx3su, hy3su, hx4su, hy4su, hx5su, hy5su, hx6su, hy6su,
      hx1uu, hy1uu, hx2uu, hy2uu, hx3uu, hy3uu, hx4uu, hy4uu, hx5uu, hy5uu, hx6uu, hy6uu]

/-- The no-target path of `toBuffer` at the default offset: a fresh
    buffer is allocated and filled with the numeric values of the
    groups of the (valid) address. -/
lemma toBuffer_none_eq (mac : String) (h : isMacAddress mac = true) :
    toBuffer mac none 0 = .ok ((toArray mac).map groupVal) ∧
    (toArray mac).length = 6 := by
  obtain ⟨sep, a1, a2, b1, b2, c1, c2, d1, d2, e1, e2, f1, f2, heq, hsep,
    ha1, ha2, hb1, hb2, hc1, hc2, hd1, hd2, he1, he2, hf1, hf2⟩ := isMac_shape h
  obtain ⟨hsSep, hsUp, hsHex⟩ := sepCharFacts hsep
  obtain ⟨ha1s, ha1su, ha1u, ha1v, ha1uu, ha1lt⟩ := hexCharFacts ha1
  obtain ⟨ha2s, ha2su, ha2u, ha2v, ha2uu, ha2lt⟩ := hexCharFacts ha2
  obtain ⟨hb1s, hb1su, hb1u, hb1v, hb1uu, hb1lt⟩ := hexCharFacts hb1
  obtain ⟨hb2s, hb2su, hb2u, hb2v, hb2uu, hb2lt⟩ := hexCharFacts hb2
  obtain ⟨hc1s, hc1su, hc1u, hc1v, hc1uu, hc1lt⟩ := hexCharFacts hc1
  obtain ⟨hc2s, hc2su, hc2u, hc2v, hc2uu, hc2lt⟩ := hexCharFacts hc2
  obtain ⟨hd1s, hd1su, hd1u, hd1v, hd1uu, hd1lt⟩ := hexCharFacts hd1
  obtain ⟨hd2s, hd2su, hd2u, hd2v, hd2uu, hd2lt⟩ := hexCharFacts hd2
  obtain ⟨he1s, he1su, he1u, he1v, he1uu, he1lt⟩ := hexCharFacts he1
  obtain ⟨he2s, he2su, he2u, he2v, he2uu, he2lt⟩ := hexCharFacts he2
  obtain ⟨hf1s, hf1su, hf1u, hf1v, hf1uu, hf1lt⟩ := hexCharFacts hf1
  obtain ⟨hf2s, hf2su, hf2u, hf2v, hf2uu, hf2lt⟩ := hexCharFacts hf2
  have harr : toArray mac =
      [String.mk [a1.toUpper, a2.toUpper], String.mk [b1.toUpper, b2.toUpper],
       String.mk [c1.toUpper, c2.toUpper], String.mk [d1.toUpper, d2.toUpper],
       String.mk [e1.toUpper, e2.toUpper], String.mk [f1.toUpper, f2.toUpper]] := by
    simp [toArray, jsToUpper, heq, splitSeps, hsUp, hsSep,
      ha1su, ha2su, hb1su, hb2su, hc1su, hc2su, hd1su, hd2su, he1su, he2su, hf1su, hf2su]
  have hstrip : stripSepsStr mac =
      String.mk [a1, a2, b1, b2, c1, c2, d1, d2, e1, e2, f1, f2] := by
    simp [stripSepsStr, heq, hsSep, ha1s, ha2s, hb1s, hb2s, hc1s, hc2s, hd1s, hd2s,
      he1s, he2s, hf1s, hf2s]
  constructor
  · unfold toBuffer
    rw [h]
    simp only [Bool.not_true, Bool.false_eq_true, if_false]
    rw [hstrip, harr]
    simp [validateBufferLength, bufferLength, toInt32, bufWriteHex, hexDecodePairs,
      ha1, ha2, hb1, hb2, hc1, hc2, hd1, hd2, he1, he2, hf1, hf2,
      writeBytes, List.replicate, groupVal,
      ha1v, ha2v, hb1v, hb2v, hc1v, hc2v, hd1v, hd2v, he1v, he2v, hf1v, hf2v]
  · rw [harr]; rfl

/-- The supplied-target path of `toBuffer`: when the validation and the
    length check pass, the target is returned as is — the write step is
    guarded by `!Buffer.isBuffer(buf)` and is skipped for a supplied
    target. -/
lemma toBuffer_some_ok (mac : String) (target : List Nat) (offset : Int)
    (hmac : isMacAddress mac = true) (h1 : -2147483648 ≤ offset) (h2 : offset < 2147483648)
    (hlen : offset + 6 ≤ (target.length : Int)) :
    toBuffer mac (some target) offset = .ok target := by
  have hni : ¬((target.length : Int) < toInt32 offset + (bufferLength : Int)) := by
    rw [toInt32_of_range h1 h2]
    simp only [bufferLength]
    omega
  simp [toBuffer, hmac, validateBufferLength, hni]

/-! ### Claim theorems -/

/-- C1, counterexample: with a valid address and a supplied 6-byte
    target at offset 0, `toBuffer` returns the target unchanged and does
    NOT return the target with the decoded bytes written into it, so the
    claim that the 6 decoded bytes are written into the target is false
    at this input. -/
theorem toBuffer_target_not_written_cex :
    toBuffer "AA:BB:CC:DD:EE:FF" (some [0, 0, 0, 0, 0, 0]) 0 = .ok [0, 0, 0, 0, 0, 0] ∧
    toBuffer "AA:BB:CC:DD:EE:FF" (some [0, 0, 0, 0, 0, 0]) 0 ≠
      .ok [170, 187, 204, 221, 238, 255] := by
  refine ⟨rfl, ?_⟩
  intro h
  rw [show toBuffer "AA:BB:CC:DD:EE:FF" (some [0, 0, 0, 0, 0, 0]) 0 =
    .ok [0, 0, 0, 0, 0, 0] from rfl] at h
  simp at h

/-- C1, amended: for every valid MAC string, every supplied target
    buffer and every int32-range offset with
    `target.length >= offset + 6`, `toBuffer` passes the length check
    and returns the supplied target completely unchanged — no byte of
    the decoded address is written to it (the write is skipped on the
    supplied-target path), and no mutation happens at all. -/
theorem toBuffer_supplied_target_unchanged (mac : String) (target : List Nat) (offset : Int)
    (hmac : isMacAddress mac = true) (h1 : -2147483648 ≤ offset) (h2 : offset < 2147483648)
    (hlen : offset + 6 ≤ (target.length : Int)) :
    toBuffer mac (some target) offset = .ok target :=
  toBuffer_some_ok mac target offset hmac h1 h2 hlen

/-- C1, witness: the amended theorem applied at a concrete valid
    address, a 7-byte target and offset 1. -/
theorem toBuffer_supplied_target_unchanged_witness :
    isMacAddress "AA:BB:CC:DD:EE:FF" = true ∧
    (1 : Int) + 6 ≤ (([1, 2, 3, 4, 5, 6, 7] : List Nat).length : Int) ∧
    toBuffer "AA:BB:CC:DD:EE:FF" (some [1, 2, 3, 4, 5, 6, 7]) 1 = .ok [1, 2, 3, 4, 5, 6, 7] :=
  ⟨rfl, by decide,
   toBuffer_supplied_target_unchanged "AA:BB:CC:DD:EE:FF" [1, 2, 3, 4, 5, 6, 7] 1 rfl
     (by decide) (by decide) (by decide)⟩

/-- C2, counterexample: `toBuffer` with no target on a concrete valid
    address returns the fresh buffer WITH the decoded bytes written into
    it, not a zero/placeholder buffer, so the claim that the fresh
    buffer is returned unwritten is false at this input. -/
theorem toBuffer_fresh_cex :
    toBuffer "AA:BB:CC:DD:EE:FF" none 0 = .ok [170, 187, 204, 221, 238, 255] ∧
    toBuffer "AA:BB:CC:DD:EE:FF" none 0 ≠ .ok (List.replicate bufferLength 0) := by
  refine ⟨rfl, ?_⟩
  intro h
  rw [show toBuffer "AA:BB:CC:DD:EE:FF" none 0 =
    .ok [170, 187, 204, 221, 238, 255] from rfl] at h
  simp [bufferLength, List.replicate] at h

/-- C2, amended: for every valid MAC string, `toBuffer` with no target
    allocates a fresh 6-byte buffer, the offset/length check succeeds
    (offset defaults to 0), and the function DOES write the decoded
    bytes into the fresh buffer: the result is the list of the numeric
    values of the 6 groups of the address. -/
theorem toBuffer_fresh_writes (mac : String) (h : isMacAddress mac = true) :
    toBuffer mac none 0 = .ok ((toArray mac).map groupVal) ∧
    ((toArray mac).map groupVal).length = 6 := by
  obtain ⟨h1, h2⟩ := toBuffer_none_eq mac h
  exact ⟨h1, by rw [List.length_map]; exact h2⟩

/-- C2, witness: the amended theorem applied at a concrete valid
    address. -/
theorem toBuffer_fresh_writes_witness :
    isMacAddress "AA:BB:CC:DD:EE:FF" = true ∧
    (toBuffer "AA:BB:CC:DD:EE:FF" none 0 =
      .ok ((toArray "AA:BB:CC:DD:EE:FF").map groupVal) ∧
     ((toArray "AA:BB:CC:DD:EE:FF").map groupVal).length = 6) :=
  ⟨rfl, toBuffer_fresh_writes "AA:BB:CC:DD:EE:FF" rfl⟩

/-- C3: for every 6-byte buffer, `toString` renders each byte as
    zero-padded 2-digit uppercase hex joined with the colon separator,
    and `toBuffer` of that string recovers the buffer byte for byte. -/
theorem toString_toBuffer_roundTrip (b : List Nat) (h6 : b.length = 6)
    (hb : ∀ x ∈ b, x < 256) :
    ∃ s, toString b 0 none = .ok s ∧
      s.data = joinSepData [':'] (b.map byteHexUpper) ∧
      toBuffer s none 0 = .ok b := by
  rcases b with _ | ⟨b0, _ | ⟨b1, _ | ⟨b2, _ | ⟨b3, _ | ⟨b4, _ | ⟨b5, rest⟩⟩⟩⟩⟩⟩ <;>
    simp only [List.length_nil, List.length_cons] at h6
  · omega
  · omega
  · omega
  · omega
  · omega
  · omega
  have hrest : rest = [] := by
    cases rest
    · rfl
    · simp at h6
  subst hrest
  have hb0 : b0 < 256 := hb b0 (by simp)
  have hb1 : b1 < 256 := hb b1 (by simp)
  have hb2 : b2 < 256 := hb b2 (by simp)
  have hb3 : b3 < 256 := hb b3 (by simp)
  have hb4 : b4 < 256 := hb b4 (by simp)
  have hb5 : b5 < 256 := hb b5 (by simp)
  have pp0 := pbPad b0 hb0
  have pp1 := pbPad b1 hb1
  have pp2 := pbPad b2 hb2
  have pp3 := pbPad b3 hb3
  have pp4 := pbPad b4 hb4
  have pp5 := pbPad b5 hb5
  obtain ⟨d0h, d0v, d0u, d0hu, d0vu, d0uu⟩ := pbDigit (b0 / 16) (by omega)
  obtain ⟨m0h, m0v, m0u, m0hu, m0vu, m0uu⟩ := pbDigit (b0 % 16) (by omega)
  obtain ⟨d1h, d1v, d1u, d1hu, d1vu, d1uu⟩ := pbDigit (b1 / 16) (by omega)
  obtain ⟨m1h, m1v, m1u, m1hu, m1vu, m1uu⟩ := pbDigit (b1 % 16) (by omega)
  obtain ⟨d2h, d2v, d2u, d2hu, d2vu, d2uu⟩ := pbDigit (b2 / 16) (by omega)
  obtain ⟨m2h, m2v, m2u, m2hu, m2vu, m2uu⟩ := pbDigit (b2 % 16) (by omega)
  obtain ⟨d3h, d3v, d3u, d3hu, d3vu, d3uu⟩ := pbDigit (b3 / 16) (by omega)
  obtain ⟨m3h, m3v, m3u, m3hu, m3vu, m3uu⟩ := pbDigit (b3 % 16) (by omega)
  obtain ⟨d4h, d4v, d4u, d4hu, d4vu, d4uu⟩ := pbDigit (b4 / 16) (by omega)
  obtain ⟨m4h, m4v, m4u, m4hu, m4vu, m4uu⟩ := pbDigit (b4 % 16) (by omega)
  obtain ⟨d5h, d5v, d5u, d5hu, d5vu, d5uu⟩ := pbDigit (b5 / 16) (by omega)
  obtain ⟨m5h, m5v, m5u, m5hu, m5vu, m5uu⟩ := pbDigit (b5 % 16) (by omega)
  have hts : toString [b0, b1, b2, b3, b4, b5] 0 none = .ok (constructMacAddress
      [String.mk (padTwo (jsByteToHex b0)), String.mk (padTwo (jsByteToHex b1)),
       String.mk (padTwo (jsByteToHex b2)), String.mk (padTwo (jsByteToHex b3)),
       String.mk (padTwo (jsByteToHex b4)), String.mk (padTwo (jsByteToHex b5))] none) := by
    rfl
  rw [pp0, pp1, pp2, pp3, pp4, pp5] at hts
  obtain ⟨hval, hdata, harr⟩ := construct_hexGroups
    (String.mk [hexDigitChar (b0 / 16), hexDigitChar (b0 % 16)])
    (String.mk [hexDigitChar (b1 / 16), hexDigitChar (b1 % 16)])
    (String.mk [hexDigitChar (b2 / 16), hexDigitChar (b2 % 16)])
    (String.mk [hexDigitChar (b3 / 16), hexDigitChar (b3 % 16)])
    (String.mk [hexDigitChar (b4 / 16), hexDigitChar (b4 % 16)])
    (String.mk [hexDigitChar (b5 / 16), hexDigitChar (b5 % 16)])
    ⟨_, _, rfl, d0h, m0h⟩ ⟨_, _, rfl, d1h, m1h⟩ ⟨_, _, rfl, d2h, m2h⟩
    ⟨_, _, rfl, d3h, m3h⟩ ⟨_, _, rfl, d4h, m4h⟩ ⟨_, _, rfl, d5h, m5h⟩
  have hup0 : upGroup (String.mk [hexDigitChar (b0 / 16), hexDigitChar (b0 % 16)]) =
      String.mk [upperHexDigit (b0 / 16), upperHexDigit (b0 % 16)] := by
    simp [upGroup, d0u, m0u]
  have hup1 : upGroup (String.mk [hexDigitChar (b1 / 16), hexDigitChar (b1 % 16)]) =
      String.mk [upperHexDigit (b1 / 16), upperHexDigit (b1 % 16)] := by
    simp [upGroup, d1u, m1u]
  have hup2 : upGroup (String.mk [hexDigitChar (b2 / 16), hexDigitChar (b2 % 16)]) =
      String.mk [upperHexDigit (b2 / 16), upperHexDigit (b2 % 16)] := by
    simp [upGroup, d2u, m2u]
  have hup3 : upGroup (String.mk [hexDigitChar (b3 / 16), hexDigitChar (b3 % 16)]) =
      String.mk [upperHexDigit (b3 / 16), upperHexDigit (b3 % 16)] := by
    simp [upGroup, d3u, m3u]
  have hup4 : upGroup (String.mk [hexDigitChar (b4 / 16), hexDigitChar (b4 % 16)]) =
      String.mk [upperHexDigit (b4 / 16), upperHexDigit (b4 % 16)] := by
    simp [upGroup, d4u, m4u]
  have hup5 : upGroup (String.mk [hexDigitChar (b5 / 16), hexDigitChar (b5 % 16)]) =
      String.mk [upperHexDigit (b5 / 16), upperHexDigit (b5 % 16)] := by
    simp [upGroup, d5u, m5u]
  rw [hup0, hup1, hup2, hup3, hup4, hup5] at hdata harr
  refine ⟨_, hts, ?_, ?_⟩
  · rw [hdata]
    simp [byteHexUpper]
  · obtain ⟨hbuf, _⟩ := toBuffer_none_eq _ hval
    rw [hbuf, harr]
    have e0 : groupVal (String.mk [upperHexDigit (b0 / 16), upperHexDigit (b0 % 16)]) = b0 := by
      simp [groupVal, d0vu, m0vu]
      omega
    have e1 : groupVal (String.mk [upperHexDigit (b1 / 16), upperHexDigit (b1 % 16)]) = b1 := by
      simp [groupVal, d1vu, m1vu]
      omega
    have e2 : groupVal (String.mk [upperHexDigit (b2 / 16), upperHexDigit (b2 % 16)]) = b2 := by
      simp [groupVal, d2vu, m2vu]
      omega
    have e3 : groupVal (String.mk [upperHexDigit (b3 / 16), upperHexDigit (b3 % 16)]) = b3 := by
      simp [groupVal, d3vu, m3vu]
      omega
    have e4 : groupVal (String.mk [upperHexDigit (b4 / 16), upperHexDigit (b4 % 16)]) = b4 := by
      simp [groupVal, d4vu, m4vu]
      omega
    have e5 : groupVal (String.mk [upperHexDigit (b5 / 16), upperHexDigit (b5 % 16)]) = b5 := by
      simp [groupVal, d5vu, m5vu]
      omega
    simp [e0, e1, e2, e3, e4, e5]

/-- C3, witness: the round-trip theorem applied at the buffer
    AA BB CC DD EE FF, together with the concrete rendering of that
    buffer. -/
theorem toString_toBuffer_roundTrip_witness :
    ([170, 187, 204, 221, 238, 255] : List Nat).length = 6 ∧
    toString [170, 187, 204, 221, 238, 255] 0 none = .ok "AA:BB:CC:DD:EE:FF" ∧
    (∃ s, toString [170, 187, 204, 221, 238, 255] 0 none = .ok s ∧
      s.data = joinSepData [':'] (([170, 187, 204, 221, 238, 255] : List Nat).map byteHexUpper) ∧
      toBuffer s none 0 = .ok [170, 187, 204, 221, 238, 255]) :=
  ⟨rfl, rfl, toString_toBuffer_roundTrip [170, 187, 204, 221, 238, 255] rfl (by decide)⟩

/-- C4: `isMacAddress` returns true exactly on strings made of 6 groups
    of 2 hex characters joined by 5 occurrences of one consistent
    separator from the colon/hyphen set; in particular the empty string
    is rejected.  (The embedding is a total function, so the validator
    never throws.) -/
theorem isMacAddress_spec :
    (∀ s : String, isMacAddress s = true ↔ macSpec s) ∧ isMacAddress "" = false := by
  constructor
  · intro s
    constructor
    · intro h
      obtain ⟨sep, a1, a2, b1, b2, c1, c2, d1, d2, e1, e2, f1, f2, heq, hsep,
        ha1, ha2, hb1, hb2, hc1, hc2, hd1, hd2, he1, he2, hf1, hf2⟩ := isMac_shape h
      refine ⟨sep, [[a1, a2], [b1, b2], [c1, c2], [d1, d2], [e1, e2], [f1, f2]],
        hsep, rfl, ?_, ?_⟩
      · intro g hg
        simp only [List.mem_cons, List.not_mem_nil, or_false] at hg
        rcases hg with rfl | rfl | rfl | rfl | rfl | rfl <;>
          exact ⟨rfl, by
            intro c hc
            simp only [List.mem_cons, List.not_mem_nil, or_false] at hc
            rcases hc with rfl | rfl <;> assumption⟩
      · rw [heq]
        simp [joinSepData]
    · rintro ⟨sep, gs, hsep, hlen, hgs, hdata⟩
      rcases gs with _ | ⟨g1, _ | ⟨g2, _ | ⟨g3, _ | ⟨g4, _ | ⟨g5, _ | ⟨g6, rest⟩⟩⟩⟩⟩⟩ <;>
        simp only [List.length_nil, List.length_cons] at hlen
      · omega
      · omega
      · omega
      · omega
      · omega
      · omega
      have hrest : rest = [] := by
        cases rest
        · rfl
        · simp at hlen
      subst hrest
      obtain ⟨hg1len, hg1hex⟩ := hgs g1 (by simp)
      obtain ⟨hg2len, hg2hex⟩ := hgs g2 (by simp)
      obtain ⟨hg3len, hg3hex⟩ := hgs g3 (by simp)
      obtain ⟨hg4len, hg4hex⟩ := hgs g4 (by simp)
      obtain ⟨hg5len, hg5hex⟩ := hgs g5 (by simp)
      obtain ⟨hg6len, hg6hex⟩ := hgs g6 (by simp)
      rcases g1 with _ | ⟨x1, _ | ⟨y1, _ | _⟩⟩ <;> simp at hg1len
      rcases g2 with _ | ⟨x2, _ | ⟨y2, _ | _⟩⟩ <;> simp at hg2len
      rcases g3 with _ | ⟨x3, _ | ⟨y3, _ | _⟩⟩ <;> simp at hg3len
      rcases g4 with _ | ⟨x4, _ | ⟨y4, _ | _⟩⟩ <;> simp at hg4len
      rcases g5 with _ | ⟨x5, _ | ⟨y5, _ | _⟩⟩ <;> simp at hg5len
      rcases g6 with _ | ⟨x6, _ | ⟨y6, _ | _⟩⟩ <;> simp at hg6len
      have hx1 := hg1hex x1 (by simp)
      have hy1 := hg1hex y1 (by simp)
      have hx2 := hg2hex x2 (by simp)
      have hy2 := hg2hex y2 (by simp)
      have hx3 := hg3hex x3 (by simp)
      have hy3 := hg3hex y3 (by simp)
      have hx4 := hg4hex x4 (by simp)
      have hy4 := hg4hex y4 (by simp)
      have hx5 := hg5hex x5 (by simp)
      have hy5 := hg5hex y5 (by simp)
      have hx6 := hg6hex x6 (by simp)
      have hy6 := hg6hex y6 (by simp)
      have hdata2 : s.data = [x1, y1, sep, x2, y2, sep, x3, y3, sep,
          x4, y4, sep, x5, y5, sep, x6, y6] := by
        rw [hdata]; simp [joinSepData]
      unfold isMacAddress
      rw [hdata2]
      simp [macShape, hx1, hy1, hx2, hy2, hx3, hy3, hx4, hy4, hx5, hy5, hx6, hy6]
      rcases hsep with rfl | rfl
      · simp
      · simp
  · rfl

/-- C5: on valid arguments `areEqual` succeeds and returns true exactly
    when every argument's uppercase group sequence is set-equal to the
    first argument's (mutual subset, ignoring order and duplicate
    counts); a single valid argument always yields true. -/
theorem areEqual_setEq_spec (ms : List String) (h : ∀ m ∈ ms, isMacAddress m = true) :
    ∃ r : Bool, areEqual ms = .ok r ∧
      (r = true ↔ ∀ m ∈ ms, groupSetEq (toArray (ms.headD "")) (toArray m)) ∧
      (∀ m, ms = [m] → r = true) := by
  have hc := convertAddresses_ok ms h 0
  refine ⟨(ms.map toArray).all fun a => sameElements ((ms.map toArray).headD []) a,
    ?_, ?_, ?_⟩
  · simp [areEqual, hc]
  · cases ms with
    | nil => simp
    | cons m0 rest =>
      rw [List.all_eq_true]
      constructor
      · intro hall m hm
        have := hall (toArray m) (List.mem_map_of_mem toArray hm)
        exact (sameElements_iff _ _).1 (by simpa using this)
      · intro hall a ha
        obtain ⟨m, hm, rfl⟩ := List.mem_map.1 ha
        exact (sameElements_iff _ _).2 (hall m hm)
  · intro m hm
    subst hm
    simp [sameElements_self]

/-- C5, witness: the theorem applied to a concrete valid pair differing
    only in case, whose result is true. -/
theorem areEqual_setEq_spec_witness :
    (∀ m ∈ ["AA:BB:CC:DD:EE:FF", "aa:bb:cc:dd:ee:ff"], isMacAddress m = true) ∧
    (∃ r : Bool, areEqual ["AA:BB:CC:DD:EE:FF", "aa:bb:cc:dd:ee:ff"] = .ok r ∧
      (r = true ↔ ∀ m ∈ ["AA:BB:CC:DD:EE:FF", "aa:bb:cc:dd:ee:ff"],
        groupSetEq (toArray (["AA:BB:CC:DD:EE:FF", "aa:bb:cc:dd:ee:ff"].headD ""))
          (toArray m)) ∧
      (∀ m, ["AA:BB:CC:DD:EE:FF", "aa:bb:cc:dd:ee:ff"] = [m] → r = true)) := by
  have hv : ∀ m ∈ ["AA:BB:CC:DD:EE:FF", "aa:bb:cc:dd:ee:ff"], isMacAddress m = true := by
    intro m hm
    simp only [List.mem_cons, List.not_mem_nil, or_false] at hm
    rcases hm with rfl | rfl <;> rfl
  exact ⟨hv, areEqual_setEq_spec ["AA:BB:CC:DD:EE:FF", "aa:bb:cc:dd:ee:ff"] hv⟩

/-- C6: on a valid address, `reverseMacAddress` produces the canonical
    (uppercase, colon-joined) formatting of the reversed group sequence,
    and applying it twice yields an address that `areEqual` considers
    equal to the original. -/
theorem reverseMacAddress_spec (mac : String) (h : isMacAddress mac = true) :
    reverseMacAddress mac = .ok (constructMacAddress (toArray mac).reverse none) ∧
    ∃ r2, reverseMacAddress (constructMacAddress (toArray mac).reverse none) = .ok r2 ∧
      areEqual [r2, mac] = .ok true := by
  obtain ⟨sep, a1, a2, b1, b2, c1, c2, d1, d2, e1, e2, f1, f2, heq, hsep,
    ha1, ha2, hb1, hb2, hc1, hc2, hd1, hd2, he1, he2, hf1, hf2⟩ := isMac_shape h
  obtain ⟨hsSep, hsUp, hsHex⟩ := sepCharFacts hsep
  obtain ⟨ha1s, ha1su, ha1u, ha1v, ha1uu, ha1lt⟩ := hexCharFacts ha1
  obtain ⟨ha2s, ha2su, ha2u, ha2v, ha2uu, ha2lt⟩ := hexCharFacts ha2
  obtain ⟨hb1s, hb1su, hb1u, hb1v, hb1uu, hb1lt⟩ := hexCharFacts hb1
  obtain ⟨hb2s, hb2su, hb2u, hb2v, hb2uu, hb2lt⟩ := hexCharFacts hb2
  obtain ⟨hc1s, hc1su, hc1u, hc1v, hc1uu, hc1lt⟩ := hexCharFacts hc1
  obtain ⟨hc2s, hc2su, hc2u, hc2v, hc2uu, hc2lt⟩ := hexCharFacts hc2
  obtain ⟨hd1s, hd1su, hd1u, hd1v, hd1uu, hd1lt⟩ := hexCharFacts hd1
  obtain ⟨hd2s, hd2su, hd2u, hd2v, hd2uu, hd2lt⟩ := hexCharFacts hd2
  obtain ⟨he1s, he1su, he1u, he1v, he1uu, he1lt⟩ := hexCharFacts he1
  obtain ⟨he2s, he2su, he2u, he2v, he2uu, he2lt⟩ := hexCharFacts he2
  obtain ⟨hf1s, hf1su, hf1u, hf1v, hf1uu, hf1lt⟩ := hexCharFacts hf1
  obtain ⟨hf2s, hf2su, hf2u, hf2v, hf2uu, hf2lt⟩ := hexCharFacts hf2
  have harr : toArray mac =
      [String.mk [a1.toUpper, a2.toUpper], String.mk [b1.toUpper, b2.toUpper],
       String.mk [c1.toUpper, c2.toUpper], String.mk [d1.toUpper, d2.toUpper],
       String.mk [e1.toUpper, e2.toUpper], String.mk [f1.toUpper, f2.toUpper]] := by
    simp [toArray, jsToUpper, heq, splitSeps, hsUp, hsSep,
      ha1su, ha2su, hb1su, hb2su, hc1su, hc2su, hd1su, hd2su, he1su, he2su, hf1su, hf2su]
  have hfirst : reverseMacAddress mac =
      .ok (constructMacAddress (toArray mac).reverse none) := by
    simp [reverseMacAddress, toArray, h]
  have hrev : (toArray mac).reverse =
      [String.mk [f1.toUpper, f2.toUpper], String.mk [e1.toUpper, e2.toUpper],
       String.mk [d1.toUpper, d2.toUpper], String.mk [c1.toUpper, c2.toUpper],
       String.mk [b1.toUpper, b2.toUpper], String.mk [a1.toUpper, a2.toUpper]] := by
    rw [harr]; rfl
  obtain ⟨hRval, hRdata, hRarr⟩ := construct_hexGroups
    (String.mk [f1.toUpper, f2.toUpper]) (String.mk [e1.toUpper, e2.toUpper])
    (String.mk [d1.toUpper, d2.toUpper]) (String.mk [c1.toUpper, c2.toUpper])
    (String.mk [b1.toUpper, b2.toUpper]) (String.mk [a1.toUpper, a2.toUpper])
    ⟨f1.toUpper, f2.toUpper, rfl, hf1u, hf2u⟩ ⟨e1.toUpper, e2.toUpper, rfl, he1u, he2u⟩
    ⟨d1.toUpper, d2.toUpper, rfl, hd1u, hd2u⟩ ⟨c1.toUpper, c2.toUpper, rfl, hc1u, hc2u⟩
    ⟨b1.toUpper, b2.toUpper, rfl, hb1u, hb2u⟩ ⟨a1.toUpper, a2.toUpper, rfl, ha1u, ha2u⟩
  rw [hrev]
  refine ⟨by rw [← hrev]; exact hfirst, ?_⟩
  have hupf : upGroup (String.mk [f1.toUpper, f2.toUpper]) =
      String.mk [f1.toUpper, f2.toUpper] := by
    simp [upGroup, hf1uu, hf2uu]
  have hupe : upGroup (String.mk [e1.toUpper, e2.toUpper]) =
      String.mk [e1.toUpper, e2.toUpper] := by
    simp [upGroup, he1uu, he2uu]
  have hupd : upGroup (String.mk [d1.toUpper, d2.toUpper]) =
      String.mk [d1.toUpper, d2.toUpper] := by
    simp [upGroup, hd1uu, hd2uu]
  have hupc : upGroup (String.mk [c1.toUpper, c2.toUpper]) =
      String.mk [c1.toUpper, c2.toUpper] := by
    simp [upGroup, hc1uu, hc2uu]
  have hupb : upGroup (String.mk [b1.toUpper, b2.toUpper]) =
      String.mk [b1.toUpper, b2.toUpper] := by
    simp [upGroup, hb1uu, hb2uu]
  have hupa : upGroup (String.mk [a1.toUpper, a2.toUpper]) =
      String.mk [a1.toUpper, a2.toUpper] := by
    simp [upGroup, ha1uu, ha2uu]
  rw [hupf, hupe, hupd, hupc, hupb, hupa] at hRarr
  have hsecond : reverseMacAddress (constructMacAddress
      [String.mk [f1.toUpper, f2.toUpper], String.mk [e1.toUpper, e2.toUpper],
       String.mk [d1.toUpper, d2.toUpper], String.mk [c1.toUpper, c2.toUpper],
       String.mk [b1.toUpper, b2.toUpper], String.mk [a1.toUpper, a2.toUpper]] none) =
      .ok (constructMacAddress (toArray (constructMacAddress
      [String.mk [f1.toUpper, f2.toUpper], String.mk [e1.toUpper, e2.toUpper],
       String.mk [d1.toUpper, d2.toUpper], String.mk [c1.toUpper, c2.toUpper],
       String.mk [b1.toUpper, b2.toUpper],
       String.mk [a1.toUpper, a2.toUpper]] none)).reverse none) := by
    simp [reverseMacAddress, toArray, hRval]
  obtain ⟨hR2val, hR2data, hR2arr⟩ := construct_hexGroups
    (String.mk [a1.toUpper, a2.toUpper]) (String.mk [b1.toUpper, b2.toUpper])
    (String.mk [c1.toUpper, c2.toUpper]) (String.mk [d1.toUpper, d2.toUpper])
    (String.mk [e1.toUpper, e2.toUpper]) (String.mk [f1.toUpper, f2.toUpper])
    ⟨a1.toUpper, a2.toUpper, rfl, ha1u, ha2u⟩ ⟨b1.toUpper, b2.toUpper, rfl, hb1u, hb2u⟩
    ⟨c1.toUpper, c2.toUpper, rfl, hc1u, hc2u⟩ ⟨d1.toUpper, d2.toUpper, rfl, hd1u, hd2u⟩
    ⟨e1.toUpper, e2.toUpper, rfl, he1u, he2u⟩ ⟨f1.toUpper, f2.toUpper, rfl, hf1u, hf2u⟩
  rw [hupa, hupb, hupc, hupd, hupe, hupf] at hR2arr
  refine ⟨constructMacAddress
      [String.mk [a1.toUpper, a2.toUpper], String.mk [b1.toUpper, b2.toUpper],
       String.mk [c1.toUpper, c2.toUpper], String.mk [d1.toUpper, d2.toUpper],
       String.mk [e1.toUpper, e2.toUpper], String.mk [f1.toUpper, f2.toUpper]] none, ?_, ?_⟩
  · rw [hsecond, hRarr]
    rfl
  · have hval2 : ∀ m ∈ [constructMacAddress
        [String.mk [a1.toUpper, a2.toUpper], String.mk [b1.toUpper, b2.toUpper],
         String.mk [c1.toUpper, c2.toUpper], String.mk [d1.toUpper, d2.toUpper],
         String.mk [e1.toUpper, e2.toUpper], String.mk [f1.toUpper, f2.toUpper]] none, mac],
        isMacAddress m = true := by
      intro m hm
      simp only [List.mem_cons, List.not_mem_nil, or_false] at hm
      rcases hm with rfl | rfl
      · exact hR2val
      · exact h
    have hconv := convertAddresses_ok _ hval2 0
    simp only [areEqual, hconv, List.map_cons, List.map_nil]
    rw [hR2arr, harr]
    simp [sameElements_self]

/-- C6, witness: the theorem applied at a concrete valid address. -/
theorem reverseMacAddress_spec_witness :
    isMacAddress "AA:BB:CC:DD:EE:FF" = true ∧
    (reverseMacAddress "AA:BB:CC:DD:EE:FF" =
      .ok (constructMacAddress (toArray "AA:BB:CC:DD:EE:FF").reverse none) ∧
     ∃ r2, reverseMacAddress
        (constructMacAddress (toArray "AA:BB:CC:DD:EE:FF").reverse none) = .ok r2 ∧
      areEqual [r2, "AA:BB:CC:DD:EE:FF"] = .ok true) :=
  ⟨rfl, reverseMacAddress_spec "AA:BB:CC:DD:EE:FF" rfl⟩

/-- C7: with a valid address, a supplied target (for `toBuffer`) and a
    non-negative int32-range offset, the buffer-too-small error is
    raised by `toBuffer` and `toString` exactly when the container's
    length is below `offset + 6`; otherwise both succeed, so no partial
    result is ever produced on failure. -/
theorem bufferTooSmall_exact (mac : String) (target source : List Nat) (offset : Int)
    (hmac : isMacAddress mac = true) (h1 : 0 ≤ offset) (h2 : offset < 2147483648) :
    (((target.length : Int) < offset + 6 →
        toBuffer mac (some target) offset = .error (.bufferTooSmall offset target.length)) ∧
     (offset + 6 ≤ (target.length : Int) →
        toBuffer mac (some target) offset = .ok target)) ∧
    (((source.length : Int) < offset + 6 →
        toString source offset none = .error (.bufferTooSmall offset source.length)) ∧
     (offset + 6 ≤ (source.length : Int) →
        ∃ s, toString source offset none = .ok s)) := by
  have h32 : toInt32 offset = offset := toInt32_of_range (by omega) h2
  refine ⟨⟨?_, ?_⟩, ?_, ?_⟩
  · intro hlt
    have hcond : (target.length : Int) < offset + (bufferLength : Int) := by
      simpa [bufferLength] using hlt
    simp [toBuffer, hmac, validateBufferLength, h32, hcond]
  · intro hge
    exact toBuffer_some_ok mac target offset hmac (by omega) h2 hge
  · intro hlt
    have hcond : (source.length : Int) < offset + (bufferLength : Int) := by
      simpa [bufferLength] using hlt
    simp [toString, validateBufferLength, h32, hcond]
  · intro hge
    have hcond : ¬((source.length : Int) < offset + (bufferLength : Int)) := by
      simp only [bufferLength]
      omega
    have hneg : ¬(offset < 0) := by omega
    simp [toString, validateBufferLength, h32, hcond, hneg]

/-- C7, witness: a 5-byte container at offset 0 fails with the
    buffer-too-small error for both operations. -/
theorem bufferTooSmall_exact_witness :
    isMacAddress "AA:BB:CC:DD:EE:FF" = true ∧
    (([0, 0, 0, 0, 0] : List Nat).length : Int) < 0 + 6 ∧
    toBuffer "AA:BB:CC:DD:EE:FF" (some [0, 0, 0, 0, 0]) 0 = .error (.bufferTooSmall 0 5) ∧
    toString [0, 0, 0, 0, 0] 0 none = .error (.bufferTooSmall 0 5) :=
  ⟨rfl, by decide,
   (bufferTooSmall_exact "AA:BB:CC:DD:EE:FF" [0, 0, 0, 0, 0] [0, 0, 0, 0, 0] 0 rfl
      (by decide) (by decide)).1.1 (by decide),
   (bufferTooSmall_exact "AA:BB:CC:DD:EE:FF" [0, 0, 0, 0, 0] [0, 0, 0, 0, 0] 0 rfl
      (by decide) (by decide)).2.1 (by decide)⟩

/-- C8: every operation consuming an invalid address string fails fast
    with the invalid-format error: `toBuffer` for any buffer and offset,
    `reverseMacAddress`, and `areEqual` (which names the offending
    address and its argument position) — none of them returns a
    default, empty or partial value. -/
theorem invalidFormat_failfast (s : String) (hs : isMacAddress s = false) :
    (∀ buf offset, toBuffer s buf offset = .error .invalidFormat) ∧
    reverseMacAddress s = .error .invalidFormat ∧
    (∀ pre post, (∀ m ∈ pre, isMacAddress m = true) →
      areEqual (pre ++ s :: post) = .error (.invalidFormatAt s pre.length)) := by
  refine ⟨?_, ?_, ?_⟩
  · intro buf offset
    simp [toBuffer, hs]
  · simp [reverseMacAddress, hs]
  · intro pre post hpre
    have hc := convertAddresses_err hs pre hpre post 0
    simp [areEqual, hc]

/-- C8, witness: the theorem applied at the invalid string xx, also as
    the second argument of `areEqual` after one valid address. -/
theorem invalidFormat_failfast_witness :
    isMacAddress "xx" = false ∧
    toBuffer "xx" none 0 = .error .invalidFormat ∧
    reverseMacAddress "xx" = .error .invalidFormat ∧
    areEqual ["AA:BB:CC:DD:EE:FF", "xx"] = .error (.invalidFormatAt "xx" 1) := by
  refine ⟨rfl, (invalidFormat_failfast "xx" rfl).1 none 0,
    (invalidFormat_failfast "xx" rfl).2.1, ?_⟩
  have h := (invalidFormat_failfast "xx" rfl).2.2 ["AA:BB:CC:DD:EE:FF"] []
    (by intro m hm; simp at hm; subst hm; rfl)
  simpa using h

/-- C9: `areEqual` invoked with zero arguments returns true — both
    loops run over the empty list, so the initial result survives and
    no error is raised. -/
theorem areEqual_empty_true : areEqual [] = .ok true := rfl

/-- C10: the size guard does not enforce a non-negative offset: on a
    6-byte buffer with offset -1 (truncated by `~~` to -1) the
    `validateBufferLength` check passes, and `toString` then fails on
    the out-of-range read with an error that is not the
    buffer-too-small error. -/
theorem negative_offset_guard_gap :
    validateBufferLength [0, 0, 0, 0, 0, 0] (toInt32 (-1)) = .ok () ∧
    toString [0, 0, 0, 0, 0, 0] (-1) none = .error .rangeError ∧
    ∀ o l, JsError.rangeError ≠ JsError.bufferTooSmall o l :=
  ⟨rfl, rfl, fun _ _ h => JsError.noConfusion h⟩

end MacUtils
